import Mathlib

/-!
Shallow embedding of the avalon-tracker repository (src/types.rs, src/db.rs).

Modelling conventions:
- Rust `HashMap<String, Role>` is modelled as an association list
  `List (String × Role)`; the list order stands for the (arbitrary) hash-map
  iteration order, and the hash-map key-uniqueness invariant appears as a
  `Nodup` hypothesis on the key list where a proof needs it.
- `u32` counters (`Record.wins/losses`) are modelled as `Nat`; in the source a
  debug build panics on overflow rather than wrapping, so no wrap-around
  behaviour is modelled.
- `f32` win percentages are modelled exactly: the only NaN the source can
  produce is `0.0/0.0` (when `wins + losses == 0`), modelled as `none`; a
  defined percentage is modelled as the exact rational `wins/(wins+losses)`
  (f32 rounding is monotone and the comparisons proved here are at values the
  float computes exactly).
- The sqlite store written by `create_game` and read by `find_game` is
  modelled as an in-memory `StoredGame` holding exactly the columns the
  queries touch, with enum-typed columns as the TEXT strings sqlx writes
  (`#[sqlx(rename_all = "lowercase")]`).
- Fallible code (`Role::try_from`, `find_game`) returns `Option`.
-/

namespace Avalon

/-- `enum Role` from src/types.rs. -/
inductive Role where
  | Assassin | Merlin | Minion | Mordred | Morgana
  | Oberon | Percival | ReverseOberon | Servant
deriving DecidableEq, Repr

/-- `enum Alignment` from src/types.rs. -/
inductive Alignment where
  | Good | Evil
deriving DecidableEq, Repr

/-- `enum QuestStatus` from src/types.rs. -/
inductive QuestStatus where
  | Success | Fail
deriving DecidableEq, Repr

/-- `enum VictoryType` from src/types.rs. -/
inductive VictoryType where
  | Assassination | Quest
deriving DecidableEq, Repr

/-- `struct Quest` from src/types.rs: status, optional fail count, participants. -/
structure Quest where
  status : QuestStatus
  fails : Option Int
  participants : List String
deriving DecidableEq, Repr

/-- `struct EndResult` from src/types.rs. -/
structure EndResult where
  winner : Alignment
  victory_type : VictoryType
deriving DecidableEq, Repr

/-- `struct GameInfo` from src/types.rs; the player `HashMap` is an assoc list. -/
structure GameInfo where
  players : List (String × Role)
  quests : List Quest
  result : EndResult
deriving DecidableEq, Repr

/-- `Role::alignment` (src/types.rs lines 123-132). -/
def Role.alignment : Role → Alignment
  | .Assassin | .Morgana | .Minion | .Mordred | .Oberon => .Evil
  | .Merlin | .Percival | .ReverseOberon | .Servant => .Good

/-- `GameInfo::winners` (src/types.rs lines 91-103): keys whose role's
alignment equals the declared winner. -/
def GameInfo.winners (g : GameInfo) : List String :=
  (g.players.filter (fun p => decide (p.2.alignment = g.result.winner))).map Prod.fst

/-- `GameInfo::all_players` (src/types.rs lines 105-107): the key list. -/
def GameInfo.all_players (g : GameInfo) : List String :=
  g.players.map Prod.fst

/-- `GameInfo::players_with_alignment` (src/types.rs lines 109-120). -/
def GameInfo.players_with_alignment (g : GameInfo) (a : Alignment) : List String :=
  (g.players.filter (fun p => decide (p.2.alignment = a))).map Prod.fst

/-- `struct Record` from src/types.rs (u32 counters modelled as Nat). -/
structure Record where
  wins : Nat
  losses : Nat
deriving DecidableEq, Repr

/-- `Record::default` (src/types.rs lines 148-152). -/
def Record.default : Record := ⟨0, 0⟩

/-- `Record::win_percentage` (src/types.rs lines 141-145), exactly:
`none` is the NaN produced by `0.0/0.0`; otherwise the exact rational. -/
def Record.winPercentageQ (r : Record) : Option ℚ :=
  if r.wins + r.losses = 0 then none
  else some ((r.wins : ℚ) / ((r.wins : ℚ) + (r.losses : ℚ)))

/-- `Ordering` on ℚ via the linear order (models `f32::partial_cmp` on the
defined values). -/
def cmpQ (p q : ℚ) : Ordering :=
  if p < q then .lt else if p = q then .eq else .gt

/-- `b.win_percentage().partial_cmp(&a.win_percentage())` as in
src/types.rs line 166-168: `none` exactly when either percentage is NaN. -/
def cmpPctOpt (x y : Record) : Option Ordering :=
  match x.winPercentageQ, y.winPercentageQ with
  | some p, some q => some (cmpQ p q)
  | _, _ => none

/-- The comparator passed to `records.sort_by` in `Standings::fmt`
(src/types.rs lines 164-172), on (name, record) pairs.
Note: the name comparison runs only when `partial_cmp` returns `None`. -/
def cmpRecords (a b : String × Record) : Ordering :=
  match compare b.2.wins a.2.wins with
  | .eq =>
    match cmpPctOpt b.2 a.2 with
    | some o => o
    | none => compare a.1 b.1
  | .lt => .lt
  | .gt => .gt

/-- Stable insertion step: `x` goes before the first element it does not
compare `gt` to (equal elements keep their original relative order, as with
Rust's stable `sort_by`). -/
def insertByCmp (cmp : α → α → Ordering) (x : α) : List α → List α
  | [] => [x]
  | y :: ys => if cmp x y = .gt then y :: insertByCmp cmp x ys else x :: y :: ys

/-- Stable sort by a comparator, modelling `Vec::sort_by`. -/
def sortByCmp (cmp : α → α → Ordering) : List α → List α
  | [] => []
  | x :: xs => insertByCmp cmp x (sortByCmp cmp xs)

/-- The `Standings` map, as an assoc list from player name to `Record`. -/
abbrev Standing := List (String × Record)

/-- Lookup in a `Standing`, i.e. `HashMap::get`. -/
def lookupRec (st : Standing) (name : String) : Option Record :=
  (st.find? (fun p => p.1 = name)).map Prod.snd

/-- One increment of `standings`' inner loop body
(`record.wins += 1` / `record.losses += 1`, src/types.rs lines 195-199). -/
def bumpRecord (isWin : Bool) (r : Record) : Record :=
  if isWin then { r with wins := r.wins + 1 } else { r with losses := r.losses + 1 }

/-- `standing.entry(player).or_insert_with(Record::default)` followed by the
increment: update the entry in place, appending a fresh default entry when the
key is absent. -/
def updateStanding (st : Standing) (name : String) (isWin : Bool) : Standing :=
  match st with
  | [] => [(name, bumpRecord isWin Record.default)]
  | (k, r) :: rest =>
    if k = name then (k, bumpRecord isWin r) :: rest
    else (k, r) :: updateStanding rest name isWin

/-- The body of `standings`' outer loop (src/types.rs lines 190-201):
fold one game's `all_players` into the accumulator. -/
def processGame (st : Standing) (g : GameInfo) : Standing :=
  g.all_players.foldl
    (fun acc player => updateStanding acc player (decide (player ∈ g.winners))) st

/-- `standings` (src/types.rs lines 188-203). -/
def standings (info : List GameInfo) : Standing :=
  info.foldl processGame []

/-- The two buckets of `standings_by_alignment`'s `HashMap<Alignment, Standings>`. -/
structure AlignStandings where
  good : Standing
  evil : Standing

/-- The per-game, per-alignment inner loop of `standings_by_alignment`
(src/types.rs lines 212-221). -/
def processAligned (a : Alignment) (st : Standing) (g : GameInfo) : Standing :=
  (g.players_with_alignment a).foldl
    (fun acc player => updateStanding acc player (decide (player ∈ g.winners))) st

/-- `standings_by_alignment` (src/types.rs lines 205-225); the loop over
`[Good, Evil]` updates both buckets for each game. -/
def standingsByAlignment (info : List GameInfo) : AlignStandings :=
  info.foldl
    (fun acc g => ⟨processAligned .Good acc.good g, processAligned .Evil acc.evil g⟩)
    ⟨[], []⟩

/-- Record addition used to state the closed form of the folds. -/
def addRec (r : Record) (w l : Nat) : Record := ⟨r.wins + w, r.losses + l⟩

/-- The games, among `games`, in which `name` occurs in `P g` and in the
winner list: the number of wins the fold credits to `name`. -/
def winCountOn (P : GameInfo → List String) (name : String)
    (games : List GameInfo) : Nat :=
  (games.filter (fun g => decide (name ∈ P g) && decide (name ∈ g.winners))).length

/-- The games, among `games`, in which `name` occurs in `P g` but not in the
winner list: the number of losses the fold credits to `name`. -/
def lossCountOn (P : GameInfo → List String) (name : String)
    (games : List GameInfo) : Nat :=
  (games.filter (fun g => decide (name ∈ P g) && !decide (name ∈ g.winners))).length

/-- Wins of an optional record, counting a missing entry as 0. -/
def optWins : Option Record → Nat
  | none => 0
  | some r => r.wins

/-- Losses of an optional record, counting a missing entry as 0. -/
def optLosses : Option Record → Nat
  | none => 0
  | some r => r.losses

/-- Common shape of `standings` and of each bucket of
`standings_by_alignment`: fold every game, feeding the per-game name list
`P g` through the entry-update loop. -/
def foldGames (P : GameInfo → List String) (games : List GameInfo)
    (st : Standing) : Standing :=
  games.foldl
    (fun acc g => (P g).foldl
      (fun acc2 p => updateStanding acc2 p (decide (p ∈ g.winners))) acc) st

/-! ## Storage model (src/db.rs) -/

/-- The TEXT sqlx writes for a `Role` (`#[sqlx(rename_all = "lowercase")]`). -/
def Role.toDbString : Role → String
  | .Assassin => "assassin"
  | .Merlin => "merlin"
  | .Minion => "minion"
  | .Mordred => "mordred"
  | .Morgana => "morgana"
  | .Oberon => "oberon"
  | .Percival => "percival"
  | .ReverseOberon => "reverseoberon"
  | .Servant => "servant"

/-- The TEXT sqlx writes for an `Alignment`. -/
def Alignment.toDbString : Alignment → String
  | .Good => "good"
  | .Evil => "evil"

/-- The TEXT sqlx writes for a `QuestStatus`. -/
def QuestStatus.toDbString : QuestStatus → String
  | .Success => "success"
  | .Fail => "fail"

/-- `Role::try_from(&str)` (src/types.rs lines 44-63); `none` is the
`Err(sqlx::Error::PoolClosed)` branch. -/
def Role.tryFrom : String → Option Role
  | "assassin" => some .Assassin
  | "merlin" => some .Merlin
  | "minion" => some .Minion
  | "mordred" => some .Mordred
  | "morgana" => some .Morgana
  | "oberon" => some .Oberon
  | "percival" => some .Percival
  | "reverseoberon" => some .ReverseOberon
  | "servant" => some .Servant
  | _ => none

/-- The rows `create_game` writes for one quest: the `quests` row
(fails, status) plus the `quest_participants` rows (name, role TEXT). -/
structure StoredQuest where
  fails : Int
  status : String
  participants : List (String × String)
deriving DecidableEq, Repr

/-- The rows `create_game` writes for one game: the `games` row's nullable
`winner` column, the `player_roles` rows, and the quests in
`games_to_quests` order. -/
structure StoredGame where
  winner : Option String
  player_roles : List (String × String)
  quests : List StoredQuest
deriving DecidableEq, Repr

/-- `create_game` (src/db.rs lines 12-63) as the store it commits.
A quest participant absent from the player map is stored with role
`game.players.get(participant).unwrap_or(&Role::Servant)` (line 55). -/
def create_game (game : GameInfo) : StoredGame :=
  { winner := some game.result.winner.toDbString
    player_roles := game.players.map (fun p => (p.1, p.2.toDbString))
    quests := game.quests.map (fun q =>
      { fails := q.fails.getD 0
        status := q.status.toDbString
        participants := q.participants.map (fun name =>
          (name, (((game.players.lookup name).getD Role.Servant).toDbString))) }) }

/-- The player-map reconstruction loop of `find_game` (src/db.rs lines 77-80):
each stored role TEXT goes through `Role::try_from`, failing on the first
unrecognized string. -/
def decodePlayers : List (String × String) → Option (List (String × Role))
  | [] => some []
  | (name, s) :: rest => do
    let r ← Role.tryFrom s
    let tail ← decodePlayers rest
    some ((name, r) :: tail)

/-- `find_game` (src/db.rs lines 65-137) on an already-fetched store.
Note what the source does: every reconstructed quest gets
`status: types::QuestStatus::Success` verbatim (line 106); `num_failures`
is then counted over those statuses (lines 112-115); the winner is `Good`
iff the stored text equals `"good"`, anything else (including NULL) is
`Evil` (lines 117-121); `victory_type` is recomputed from `num_failures`
and the winner (lines 123-127). -/
def find_game (sg : StoredGame) : Option GameInfo := do
  let players ← decodePlayers sg.player_roles
  let quests := sg.quests.map (fun sq =>
    { status := QuestStatus.Success
      fails := some sq.fails
      participants := sq.participants.map Prod.fst : Quest })
  let numFailures := (quests.filter (fun q => decide (q.status = QuestStatus.Fail))).length
  let winner := if sg.winner = some "good" then Alignment.Good else Alignment.Evil
  let victory_type :=
    if numFailures < 3 ∧ winner = Alignment.Evil then VictoryType.Assassination
    else VictoryType.Quest
  some { players := players, quests := quests
         result := { winner := winner, victory_type := victory_type } }

/-! ## Theorems -/

/-- C4: for every GameRecord, winners is a subset of all_players, and winners
equals players_with_alignment at the declared winner (as sets of names). -/
theorem winners_subset_and_eq_pwa (g : GameInfo) (name : String) :
    (name ∈ g.winners → name ∈ g.all_players) ∧
    (name ∈ g.winners ↔ name ∈ g.players_with_alignment g.result.winner) := by
  refine ⟨?_, Iff.rfl⟩
  intro h
  simp only [GameInfo.winners, List.mem_map, List.mem_filter] at h
  obtain ⟨p, ⟨hp, _⟩, hfst⟩ := h
  exact List.mem_map.mpr ⟨p, hp, hfst⟩

/-- C5: Role.alignment is total with range {Good, Evil}, and the induced
partition is Evil = {Assassin, Morgana, Minion, Mordred, Oberon},
Good = {Merlin, Percival, ReverseOberon, Servant}. -/
theorem alignment_total_partition (r : Role) :
    (r.alignment = Alignment.Good ∨ r.alignment = Alignment.Evil) ∧
    (r.alignment = Alignment.Evil ↔
      r = Role.Assassin ∨ r = Role.Morgana ∨ r = Role.Minion ∨
      r = Role.Mordred ∨ r = Role.Oberon) ∧
    (r.alignment = Alignment.Good ↔
      r = Role.Merlin ∨ r = Role.Percival ∨ r = Role.ReverseOberon ∨
      r = Role.Servant) := by
  cases r <;> decide

/-- C7: a GameRecord with an empty player map yields empty winners,
all_players, and players_with_alignment (for every alignment), with no error. -/
theorem empty_players_empty_queries (qs : List Quest) (res : EndResult) :
    (GameInfo.mk [] qs res).winners = [] ∧
    (GameInfo.mk [] qs res).all_players = [] ∧
    ∀ a, (GameInfo.mk [] qs res).players_with_alignment a = [] :=
  ⟨rfl, rfl, fun _ => rfl⟩

/-- C9: the fail count create_game persists for each quest, in order, is 0
when the ingested fail count is absent and the unchanged value n when it is
present. -/
theorem create_game_persists_fails (g : GameInfo) :
    (create_game g).quests.map StoredQuest.fails =
      g.quests.map (fun q => match q.fails with | none => 0 | some n => n) := by
  simp only [create_game, List.map_map]
  apply List.map_congr_left
  intro q _
  simp only [Function.comp_apply]
  cases hq : q.fails <;> simp [hq]

/-- C1 (counterexample evaluation): storing a game whose only quest has
status Fail and whose result is an Evil quest-victory, then loading it back,
yields a game whose quest status is Success and whose victory type is
Assassination — not the stored game. -/
theorem find_game_create_game_not_roundtrip :
    (find_game (create_game
        { players := [("p1", Role.Merlin)]
          quests := [{ status := QuestStatus.Fail, fails := some 1,
                       participants := ["p1"] }]
          result := { winner := Alignment.Evil,
                      victory_type := VictoryType.Quest } }) =
      some { players := [("p1", Role.Merlin)]
             quests := [{ status := QuestStatus.Success, fails := some 1,
                          participants := ["p1"] }]
             result := { winner := Alignment.Evil,
                         victory_type := VictoryType.Assassination } }) ∧
    (find_game (create_game
        { players := [("p1", Role.Merlin)]
          quests := [{ status := QuestStatus.Fail, fails := some 1,
                       participants := ["p1"] }]
          result := { winner := Alignment.Evil,
                      victory_type := VictoryType.Quest } }) ≠
      some { players := [("p1", Role.Merlin)]
             quests := [{ status := QuestStatus.Fail, fails := some 1,
                          participants := ["p1"] }]
             result := { winner := Alignment.Evil,
                         victory_type := VictoryType.Quest } }) := by
  decide

/-- C2 (counterexample evaluation): create_game silently stores a quest
participant absent from the player map with the default role "servant", and
find_game silently decodes an unrecognized stored winner string to Evil
instead of failing. -/
theorem decoding_not_fail_closed :
    ((create_game
        { players := [("alice", Role.Merlin)]
          quests := [{ status := QuestStatus.Success, fails := none,
                       participants := ["ghost"] }]
          result := { winner := Alignment.Good,
                      victory_type := VictoryType.Quest } }).quests.map
        StoredQuest.participants = [[("ghost", "servant")]]) ∧
    (find_game { winner := some "banana", player_roles := [], quests := [] } =
      some { players := [], quests := []
             result := { winner := Alignment.Evil,
                         victory_type := VictoryType.Assassination } }) := by
  decide

/-- Helper for the C3 counterexample: the Standings::fmt comparator returns
eq on any two entries whose records are both one win, one loss, whatever
their names. -/
theorem cmpRecords_one_one_eq (x y : String) :
    cmpRecords (x, ⟨1, 1⟩) (y, ⟨1, 1⟩) = Ordering.eq := by
  simp [cmpRecords, cmpPctOpt, Record.winPercentageQ, cmpQ]
  decide

/-- C3 (counterexample evaluation): on two entries with equal wins and equal
defined win percentage, the comparator of Standings::fmt returns eq (the name
comparison only runs when a percentage is NaN), so the stable sort leaves
them in map-iteration order — name "b" is emitted before name "a". -/
theorem sort_not_name_tiebroken :
    cmpRecords ("a", ⟨1, 1⟩) ("b", ⟨1, 1⟩) = Ordering.eq ∧
    (sortByCmp cmpRecords [("b", ⟨1, 1⟩), ("a", ⟨1, 1⟩)]).map Prod.fst =
      ["b", "a"] := by
  refine ⟨cmpRecords_one_one_eq _ _, ?_⟩
  simp [sortByCmp, insertByCmp, cmpRecords_one_one_eq]

/-! ## Lookup and fold lemmas for the standings aggregator -/

/-- The empty standings map has no entries. -/
theorem lookupRec_nil (name : String) : lookupRec [] name = none := rfl

/-- Lookup steps over one assoc-list entry. -/
theorem lookupRec_cons (k : String) (r : Record) (tl : Standing) (m : String) :
    lookupRec ((k, r) :: tl) m = if k = m then some r else lookupRec tl m := by
  by_cases h : k = m <;>
    simp [lookupRec, List.find?_cons_of_pos, List.find?_cons_of_neg, h]

/-- Updating an entry bumps exactly the looked-up record (inserting a default
record first when the key is absent). -/
theorem lookupRec_updateStanding_self (st : Standing) (name : String) (w : Bool) :
    lookupRec (updateStanding st name w) name =
      some (bumpRecord w ((lookupRec st name).getD Record.default)) := by
  induction st with
  | nil => simp [updateStanding, lookupRec_cons, lookupRec_nil]
  | cons hd tl ih =>
    obtain ⟨k, r⟩ := hd
    by_cases hk : k = name
    · subst hk
      simp [updateStanding, lookupRec_cons]
    · simp [updateStanding, hk, lookupRec_cons, ih]

/-- Updating one key leaves every other key's entry unchanged. -/
theorem lookupRec_updateStanding_other (st : Standing) (name m : String)
    (w : Bool) (h : m ≠ name) :
    lookupRec (updateStanding st name w) m = lookupRec st m := by
  induction st with
  | nil =>
    have hnm : name ≠ m := fun e => h e.symm
    simp [updateStanding, lookupRec_cons, lookupRec_nil, hnm]
  | cons hd tl ih =>
    obtain ⟨k, r⟩ := hd
    simp only [updateStanding]
    by_cases hk : k = name
    · rw [if_pos hk, lookupRec_cons, lookupRec_cons]
      have hkm : k ≠ m := fun e => h (e.symm.trans hk)
      rw [if_neg hkm, if_neg hkm]
    · rw [if_neg hk, lookupRec_cons, lookupRec_cons]
      by_cases hm : k = m
      · rw [if_pos hm, if_pos hm]
      · rw [if_neg hm, if_neg hm, ih]

/-- Folding a name list through the update loop does not touch a name that
does not occur in it. -/
theorem lookupRec_foldl_update_notmem (ps : List String) (f : String → Bool)
    (name : String) : ∀ st : Standing, name ∉ ps →
    lookupRec (ps.foldl (fun acc p => updateStanding acc p (f p)) st) name =
      lookupRec st name := by
  induction ps with
  | nil => intro st _; rfl
  | cons p rest ih =>
    intro st h
    have hpr : name ∉ rest := fun hm => h (List.mem_cons_of_mem _ hm)
    have hpn : name ≠ p := fun e => h (e ▸ List.mem_cons_self p rest)
    simp only [List.foldl_cons]
    rw [ih _ hpr, lookupRec_updateStanding_other _ _ _ _ hpn]

/-- Folding a duplicate-free name list through the update loop bumps a
member's entry exactly once. -/
theorem lookupRec_foldl_update_mem (ps : List String) (f : String → Bool)
    (name : String) : ∀ st : Standing, ps.Nodup → name ∈ ps →
    lookupRec (ps.foldl (fun acc p => updateStanding acc p (f p)) st) name =
      some (bumpRecord (f name) ((lookupRec st name).getD Record.default)) := by
  induction ps with
  | nil => intro st _ h; cases h
  | cons p rest ih =>
    intro st hnd hmem
    simp only [List.foldl_cons]
    rcases List.mem_cons.mp hmem with he | hr
    · subst he
      have hnr : name ∉ rest := (List.nodup_cons.mp hnd).1
      rw [lookupRec_foldl_update_notmem rest f name _ hnr,
        lookupRec_updateStanding_self]
    · have hnd' := (List.nodup_cons.mp hnd).2
      have hne : name ≠ p := by
        rintro rfl
        exact (List.nodup_cons.mp hnd).1 hr
      rw [ih _ hnd' hr, lookupRec_updateStanding_other _ _ _ _ hne]

/-- A name occurring in no game of the list is counted zero times. -/
theorem counts_eq_zero (P : GameInfo → List String) (name : String)
    (gs : List GameInfo) (h : ∀ g ∈ gs, name ∉ P g) :
    winCountOn P name gs = 0 ∧ lossCountOn P name gs = 0 := by
  constructor <;>
  · simp only [winCountOn, lossCountOn, List.length_eq_zero,
      List.filter_eq_nil_iff]
    intro g hg
    simp [h g hg]

/-- One game prepended adds one win to the count exactly when the name occurs
in its processed list and its winner list. -/
theorem winCountOn_cons (P : GameInfo → List String) (name : String)
    (g : GameInfo) (gs : List GameInfo) :
    winCountOn P name (g :: gs) =
      (if name ∈ P g ∧ name ∈ g.winners then 1 else 0) + winCountOn P name gs := by
  simp only [winCountOn, List.filter_cons]
  by_cases h1 : name ∈ P g <;> by_cases h2 : name ∈ g.winners <;>
    simp [h1, h2, Nat.add_comm]

/-- One game prepended adds one loss to the count exactly when the name occurs
in its processed list but not its winner list. -/
theorem lossCountOn_cons (P : GameInfo → List String) (name : String)
    (g : GameInfo) (gs : List GameInfo) :
    lossCountOn P name (g :: gs) =
      (if name ∈ P g ∧ name ∉ g.winners then 1 else 0) + lossCountOn P name gs := by
  simp only [lossCountOn, List.filter_cons]
  by_cases h1 : name ∈ P g <;> by_cases h2 : name ∈ g.winners <;>
    simp [h1, h2, Nat.add_comm]

/-- Closed form of the common fold: under per-game duplicate-free name lists,
the entry of `name` is its win and loss counts added onto whatever the
accumulator already held, and is untouched when `name` occurs in no game. -/
theorem lookupRec_foldGames (P : GameInfo → List String) (games : List GameInfo)
    (name : String) : ∀ st : Standing, (∀ g ∈ games, (P g).Nodup) →
    lookupRec (foldGames P games st) name =
      if games.any (fun g => decide (name ∈ P g)) then
        some (addRec ((lookupRec st name).getD Record.default)
          (winCountOn P name games) (lossCountOn P name games))
      else lookupRec st name := by
  induction games with
  | nil => intro st _; simp [foldGames]
  | cons g gs ih =>
    intro st hnd
    have hg : (P g).Nodup := hnd g (List.mem_cons_self _ _)
    have hgs : ∀ g' ∈ gs, (P g').Nodup := fun g' h => hnd g' (List.mem_cons_of_mem _ h)
    have hstep : foldGames P (g :: gs) st =
        foldGames P gs
          ((P g).foldl
            (fun acc2 p => updateStanding acc2 p (decide (p ∈ g.winners))) st) := rfl
    rw [hstep, ih _ hgs, winCountOn_cons, lossCountOn_cons]
    by_cases hmem : name ∈ P g
    · have hin := lookupRec_foldl_update_mem (P g)
        (fun p => decide (p ∈ g.winners)) name st hg hmem
      have hconsany : ((g :: gs).any fun g' => decide (name ∈ P g')) = true := by
        simp [hmem]
      rw [hconsany, if_pos rfl, hin]
      by_cases hany : (gs.any fun g' => decide (name ∈ P g')) = true
      · rw [if_pos hany]
        by_cases hw : name ∈ g.winners <;>
          simp [hmem, hw, addRec, bumpRecord, Record.mk.injEq] <;> omega
      · have hanyf : (gs.any fun g' => decide (name ∈ P g')) = false := by
          cases hb : gs.any fun g' => decide (name ∈ P g')
          · rfl
          · exact absurd hb hany
        have hno : ∀ g' ∈ gs, name ∉ P g' := by
          intro g' hg' hmem'
          have hfalse := List.any_eq_false.mp hanyf g' hg'
          simp [hmem'] at hfalse
        have hz := counts_eq_zero P name gs hno
        rw [if_neg hany, hz.1, hz.2]
        by_cases hw : name ∈ g.winners <;>
          simp [hmem, hw, addRec, bumpRecord, Record.mk.injEq]
    · have hin := lookupRec_foldl_update_notmem (P g)
        (fun p => decide (p ∈ g.winners)) name st hmem
      have hconsany : ((g :: gs).any fun g' => decide (name ∈ P g')) =
          (gs.any fun g' => decide (name ∈ P g')) := by
        simp [hmem]
      rw [hin, hconsany]
      simp [hmem]

/-- Closed form of `standings`: the entry of `name` is exactly its win and
loss counts over games containing it, absent when no game contains it. -/
theorem lookupRec_standings (games : List GameInfo) (name : String)
    (hnd : ∀ g ∈ games, g.all_players.Nodup) :
    lookupRec (standings games) name =
      if games.any (fun g => decide (name ∈ g.all_players)) then
        some ⟨winCountOn GameInfo.all_players name games,
              lossCountOn GameInfo.all_players name games⟩
      else none := by
  have h0 : standings games = foldGames GameInfo.all_players games [] := rfl
  rw [h0, lookupRec_foldGames _ _ _ _ hnd]
  simp [lookupRec_nil, addRec, Record.default]

/-- Splitting a filter count by a second boolean condition. -/
theorem length_filter_and_split (l : List α) (p q : α → Bool) :
    (l.filter (fun x => p x && q x)).length +
      (l.filter (fun x => p x && !q x)).length = (l.filter p).length := by
  induction l with
  | nil => rfl
  | cons a tl ih =>
    simp only [List.filter_cons]
    cases hp : p a <;> cases hq : q a <;> simp [hp, hq] <;> omega

/-- C6: for every player with an entry in the standings, wins plus losses
equals the number of games whose player set contains that player; a player
appearing in no game has no entry. (The Nodup hypothesis is the HashMap
key-uniqueness invariant of each game's player map.) -/
theorem standings_sum_check (games : List GameInfo) (name : String)
    (hnd : ∀ g ∈ games, g.all_players.Nodup) :
    (∀ r, lookupRec (standings games) name = some r →
        r.wins + r.losses =
          (games.filter (fun g => decide (name ∈ g.all_players))).length) ∧
    ((∀ g ∈ games, name ∉ g.all_players) → lookupRec (standings games) name = none) := by
  rw [lookupRec_standings _ _ hnd]
  constructor
  · intro r hr
    by_cases hany : (games.any fun g => decide (name ∈ g.all_players)) = true
    · rw [if_pos hany] at hr
      obtain rfl := (Option.some.inj hr).symm
      simpa [winCountOn, lossCountOn] using
        length_filter_and_split games (fun g => decide (name ∈ g.all_players))
          (fun g => decide (name ∈ g.winners))
    · rw [if_neg hany] at hr
      cases hr
  · intro h
    have hanyf : (games.any fun g => decide (name ∈ g.all_players)) = false := by
      rw [List.any_eq_false]
      intro g hg
      simp [h g hg]
    simp [hanyf]

/-- Witness for C6 at a concrete one-game list. -/
theorem standings_sum_check_witness :
    (∀ g ∈ [({ players := [("a", Role.Merlin), ("b", Role.Assassin)]
               quests := []
               result := { winner := Alignment.Good,
                           victory_type := VictoryType.Quest } } : GameInfo)],
      g.all_players.Nodup) ∧
    (∀ r, lookupRec (standings
        [({ players := [("a", Role.Merlin), ("b", Role.Assassin)]
            quests := []
            result := { winner := Alignment.Good,
                        victory_type := VictoryType.Quest } } : GameInfo)]) "a" = some r →
      r.wins + r.losses =
        ([({ players := [("a", Role.Merlin), ("b", Role.Assassin)]
             quests := []
             result := { winner := Alignment.Good,
                         victory_type := VictoryType.Quest } } : GameInfo)].filter
          (fun g => decide ("a" ∈ g.all_players))).length) :=
  ⟨by decide,
   (standings_sum_check
      [({ players := [("a", Role.Merlin), ("b", Role.Assassin)]
          quests := []
          result := { winner := Alignment.Good,
                      victory_type := VictoryType.Quest } } : GameInfo)] "a"
      (by decide)).1⟩

/-- The relation between two in-memory views of the same stored game
sequence: per game, the same player map up to hash-map iteration order, the
same quests, the same end result. -/
def SameGames (g1 g2 : GameInfo) : Prop :=
  g1.players.Perm g2.players ∧ g1.quests = g2.quests ∧ g1.result = g2.result

/-- `any` agrees along `Forall₂` when the predicates agree pointwise. -/
theorem forall2_any_eq {R : α → β → Prop} {l1 : List α} {l2 : List β}
    (h : List.Forall₂ R l1 l2) (p : α → Bool) (q : β → Bool)
    (hpq : ∀ a b, R a b → p a = q b) : l1.any p = l2.any q := by
  induction h with
  | nil => rfl
  | cons hr _ ih => simp only [List.any_cons, hpq _ _ hr, ih]

/-- Filter lengths agree along `Forall₂` when the predicates agree pointwise. -/
theorem forall2_filter_length_eq {R : α → β → Prop} {l1 : List α} {l2 : List β}
    (h : List.Forall₂ R l1 l2) (p : α → Bool) (q : β → Bool)
    (hpq : ∀ a b, R a b → p a = q b) :
    (l1.filter p).length = (l2.filter q).length := by
  induction h with
  | nil => rfl
  | cons hr _ ih =>
    simp only [List.filter_cons, hpq _ _ hr]
    cases hq2 : q _ <;> simp [ih]

/-- A right member of a `Forall₂` has a related left member. -/
theorem forall2_mem_right {R : α → β → Prop} {l1 : List α} {l2 : List β}
    (h : List.Forall₂ R l1 l2) : ∀ b ∈ l2, ∃ a ∈ l1, R a b := by
  induction h with
  | nil => intro b hb; cases hb
  | cons hr _ ih =>
    intro b hb
    rcases List.mem_cons.mp hb with rfl | hb2
    · exact ⟨_, List.mem_cons_self _ _, hr⟩
    · obtain ⟨a, ha, hab⟩ := ih b hb2
      exact ⟨a, List.mem_cons_of_mem _ ha, hab⟩

/-- Two views of the same game agree on membership in `all_players`. -/
theorem sameGames_all_players {g1 g2 : GameInfo} (h : SameGames g1 g2)
    (name : String) : (name ∈ g1.all_players) ↔ (name ∈ g2.all_players) :=
  (h.1.map Prod.fst).mem_iff

/-- Two views of the same game agree on membership in `winners`. -/
theorem sameGames_winners {g1 g2 : GameInfo} (h : SameGames g1 g2)
    (name : String) : (name ∈ g1.winners) ↔ (name ∈ g2.winners) := by
  obtain ⟨hp, -, hr⟩ := h
  have : g1.winners.Perm g2.winners := by
    unfold GameInfo.winners
    rw [hr]
    exact (hp.filter _).map _
  exact this.mem_iff

/-- C8: aggregating the same immutable game sequence twice yields the same
player-to-Record mapping, even though each run may iterate every game's
player HashMap in a different order. -/
theorem standings_deterministic (games1 games2 : List GameInfo)
    (hnd : ∀ g ∈ games1, g.all_players.Nodup)
    (hrel : List.Forall₂ SameGames games1 games2) (name : String) :
    lookupRec (standings games1) name = lookupRec (standings games2) name := by
  have hnd2 : ∀ g ∈ games2, g.all_players.Nodup := by
    intro g2 hg2
    obtain ⟨g1, hg1, hs⟩ := forall2_mem_right hrel g2 hg2
    exact ((hs.1.map Prod.fst).nodup_iff).mp (hnd g1 hg1)
  rw [lookupRec_standings _ _ hnd, lookupRec_standings _ _ hnd2]
  have happ : ∀ g1 g2, SameGames g1 g2 →
      decide (name ∈ g1.all_players) = decide (name ∈ g2.all_players) :=
    fun g1 g2 hs => decide_eq_decide.mpr (sameGames_all_players hs name)
  have hwin : ∀ g1 g2, SameGames g1 g2 →
      (decide (name ∈ g1.all_players) && decide (name ∈ g1.winners)) =
      (decide (name ∈ g2.all_players) && decide (name ∈ g2.winners)) := by
    intro g1 g2 hs
    rw [happ _ _ hs, decide_eq_decide.mpr (sameGames_winners hs name)]
  have hloss : ∀ g1 g2, SameGames g1 g2 →
      (decide (name ∈ g1.all_players) && !decide (name ∈ g1.winners)) =
      (decide (name ∈ g2.all_players) && !decide (name ∈ g2.winners)) := by
    intro g1 g2 hs
    rw [happ _ _ hs, decide_eq_decide.mpr (sameGames_winners hs name)]
  rw [forall2_any_eq hrel _ _ happ]
  have hwc : winCountOn GameInfo.all_players name games1 =
      winCountOn GameInfo.all_players name games2 :=
    forall2_filter_length_eq hrel _ _ hwin
  have hlc : lossCountOn GameInfo.all_players name games1 =
      lossCountOn GameInfo.all_players name games2 :=
    forall2_filter_length_eq hrel _ _ hloss
  rw [hwc, hlc]

/-- Witness for C8: one game seen under two player-map iteration orders. -/
theorem standings_deterministic_witness :
    (∀ g ∈ [({ players := [("a", Role.Merlin), ("b", Role.Assassin)]
               quests := []
               result := { winner := Alignment.Good,
                           victory_type := VictoryType.Quest } } : GameInfo)],
       g.all_players.Nodup) ∧
    lookupRec (standings
      [({ players := [("a", Role.Merlin), ("b", Role.Assassin)]
          quests := []
          result := { winner := Alignment.Good,
                      victory_type := VictoryType.Quest } } : GameInfo)]) "a" =
    lookupRec (standings
      [({ players := [("b", Role.Assassin), ("a", Role.Merlin)]
          quests := []
          result := { winner := Alignment.Good,
                      victory_type := VictoryType.Quest } } : GameInfo)]) "a" :=
  ⟨by decide,
   standings_deterministic
     [({ players := [("a", Role.Merlin), ("b", Role.Assassin)]
         quests := []
         result := { winner := Alignment.Good,
                     victory_type := VictoryType.Quest } } : GameInfo)]
     [({ players := [("b", Role.Assassin), ("a", Role.Merlin)]
         quests := []
         result := { winner := Alignment.Good,
                     victory_type := VictoryType.Quest } } : GameInfo)]
     (by decide)
     (List.Forall₂.cons ⟨by decide, rfl, rfl⟩ List.Forall₂.nil) "a"⟩

/-- The Good and Evil buckets cover all players of a game. -/
theorem pwa_union (g : GameInfo) (name : String) :
    (name ∈ g.players_with_alignment Alignment.Good ∨
     name ∈ g.players_with_alignment Alignment.Evil) ↔ name ∈ g.all_players := by
  simp only [GameInfo.players_with_alignment, GameInfo.all_players,
    List.mem_map, List.mem_filter, decide_eq_true_eq]
  constructor
  · rintro (⟨p, ⟨hp, -⟩, hf⟩ | ⟨p, ⟨hp, -⟩, hf⟩) <;> exact ⟨p, hp, hf⟩
  · rintro ⟨p, hp, hf⟩
    cases ha : p.2.alignment
    · exact Or.inl ⟨p, ⟨hp, ha⟩, hf⟩
    · exact Or.inr ⟨p, ⟨hp, ha⟩, hf⟩

/-- Under the HashMap key-uniqueness invariant, no player is in both the
Good and the Evil bucket of one game. -/
theorem pwa_disjoint (g : GameInfo) (name : String)
    (h : g.all_players.Nodup) :
    ¬(name ∈ g.players_with_alignment Alignment.Good ∧
      name ∈ g.players_with_alignment Alignment.Evil) := by
  rintro ⟨h1, h2⟩
  simp only [GameInfo.players_with_alignment, List.mem_map, List.mem_filter,
    decide_eq_true_eq] at h1 h2
  obtain ⟨p, ⟨hp, hpa⟩, hpf⟩ := h1
  obtain ⟨q, ⟨hq, hqa⟩, hqf⟩ := h2
  have hfe : p.1 = q.1 := hpf.trans hqf.symm
  have hpq : p = q := List.inj_on_of_nodup_map h hp hq hfe
  rw [hpq] at hpa
  exact Alignment.noConfusion (hpa.symm.trans hqa)

/-- Each alignment bucket list inherits duplicate-freedom from the player
key list. -/
theorem pwa_nodup (g : GameInfo) (a : Alignment) (h : g.all_players.Nodup) :
    (g.players_with_alignment a).Nodup := by
  have hsub : List.Sublist (g.players_with_alignment a) g.all_players :=
    List.Sublist.map Prod.fst (List.filter_sublist g.players)
  exact h.sublist hsub

/-- The Good bucket of `standings_by_alignment` is the common fold over the
Good player lists. -/
theorem standingsByAlignment_good (games : List GameInfo) :
    (standingsByAlignment games).good =
      foldGames (fun g => g.players_with_alignment Alignment.Good) games [] := by
  have haux : ∀ (gs : List GameInfo) (sg se : Standing),
      (gs.foldl (fun acc g => ⟨processAligned .Good acc.good g,
        processAligned .Evil acc.evil g⟩) (⟨sg, se⟩ : AlignStandings)).good =
      foldGames (fun g => g.players_with_alignment Alignment.Good) gs sg := by
    intro gs
    induction gs with
    | nil => intro sg se; rfl
    | cons g tl ih => intro sg se; exact ih _ _
  exact haux games [] []

/-- The Evil bucket of `standings_by_alignment` is the common fold over the
Evil player lists. -/
theorem standingsByAlignment_evil (games : List GameInfo) :
    (standingsByAlignment games).evil =
      foldGames (fun g => g.players_with_alignment Alignment.Evil) games [] := by
  have haux : ∀ (gs : List GameInfo) (sg se : Standing),
      (gs.foldl (fun acc g => ⟨processAligned .Good acc.good g,
        processAligned .Evil acc.evil g⟩) (⟨sg, se⟩ : AlignStandings)).evil =
      foldGames (fun g => g.players_with_alignment Alignment.Evil) gs se := by
    intro gs
    induction gs with
    | nil => intro sg se; rfl
    | cons g tl ih => intro sg se; exact ih _ _
  exact haux games [] []

/-- A filter count splits over two pointwise-exclusive conditions that cover
the filter's condition. -/
theorem length_filter_or_split (l : List α) (p q1 q2 : α → Bool)
    (h : ∀ x ∈ l, p x = (q1 x || q2 x) ∧ ¬(q1 x = true ∧ q2 x = true)) :
    (l.filter p).length = (l.filter q1).length + (l.filter q2).length := by
  induction l with
  | nil => rfl
  | cons a tl ih =>
    have ha := h a (List.mem_cons_self _ _)
    have htl := fun x hx => h x (List.mem_cons_of_mem _ hx)
    simp only [List.filter_cons]
    cases h1 : q1 a <;> cases h2 : q2 a <;>
      simp [h1, h2, ha.1, ih htl] at ha ⊢ <;> omega

/-- The wins a fold credits to a name, counting a missing entry as zero:
under duplicate-free name lists this equals the win count outright. -/
theorem optWins_foldGames (P : GameInfo → List String) (games : List GameInfo)
    (name : String) (hnd : ∀ g ∈ games, (P g).Nodup) :
    optWins (lookupRec (foldGames P games []) name) = winCountOn P name games ∧
    optLosses (lookupRec (foldGames P games []) name) = lossCountOn P name games := by
  rw [lookupRec_foldGames _ _ _ _ hnd]
  by_cases hany : (games.any fun g => decide (name ∈ P g)) = true
  · rw [if_pos hany]
    simp [optWins, optLosses, addRec, lookupRec_nil, Record.default]
  · have hanyf : (games.any fun g => decide (name ∈ P g)) = false := by
      cases hb : games.any fun g => decide (name ∈ P g)
      · rfl
      · exact absurd hb hany
    have hno : ∀ g ∈ games, name ∉ P g := by
      intro g hg hmem
      have hfalse := List.any_eq_false.mp hanyf g hg
      simp [hmem] at hfalse
    have hz := counts_eq_zero P name games hno
    rw [if_neg hany, lookupRec_nil, hz.1, hz.2]
    exact ⟨rfl, rfl⟩

/-- Splitting the win and loss counts of the overall fold by alignment. -/
theorem counts_split_by_alignment (games : List GameInfo) (name : String)
    (hnd : ∀ g ∈ games, g.all_players.Nodup) :
    winCountOn GameInfo.all_players name games =
      winCountOn (fun g => g.players_with_alignment Alignment.Good) name games +
      winCountOn (fun g => g.players_with_alignment Alignment.Evil) name games ∧
    lossCountOn GameInfo.all_players name games =
      lossCountOn (fun g => g.players_with_alignment Alignment.Good) name games +
      lossCountOn (fun g => g.players_with_alignment Alignment.Evil) name games := by
  constructor
  · simp only [winCountOn]
    apply length_filter_or_split
    intro g' hg'
    refine ⟨?_, ?_⟩
    · have hd : decide (name ∈ g'.all_players) =
          (decide (name ∈ g'.players_with_alignment Alignment.Good) ||
           decide (name ∈ g'.players_with_alignment Alignment.Evil)) := by
        by_cases h1 : name ∈ g'.players_with_alignment Alignment.Good
        · simp [h1, (pwa_union g' name).mp (Or.inl h1)]
        · by_cases h2 : name ∈ g'.players_with_alignment Alignment.Evil
          · simp [h1, h2, (pwa_union g' name).mp (Or.inr h2)]
          · have h3 : name ∉ g'.all_players := fun hm => by
              rcases (pwa_union g' name).mpr hm with h | h
              · exact h1 h
              · exact h2 h
            simp [h1, h2, h3]
      rw [hd]
      cases decide (name ∈ g'.players_with_alignment Alignment.Good) <;>
        cases decide (name ∈ g'.players_with_alignment Alignment.Evil) <;>
        cases decide (name ∈ g'.winners) <;> rfl
    · rintro ⟨hq1, hq2⟩
      simp only [Bool.and_eq_true, decide_eq_true_eq] at hq1 hq2
      exact pwa_disjoint g' name (hnd g' hg') ⟨hq1.1, hq2.1⟩
  · simp only [lossCountOn]
    apply length_filter_or_split
    intro g' hg'
    refine ⟨?_, ?_⟩
    · have hd : decide (name ∈ g'.all_players) =
          (decide (name ∈ g'.players_with_alignment Alignment.Good) ||
           decide (name ∈ g'.players_with_alignment Alignment.Evil)) := by
        by_cases h1 : name ∈ g'.players_with_alignment Alignment.Good
        · simp [h1, (pwa_union g' name).mp (Or.inl h1)]
        · by_cases h2 : name ∈ g'.players_with_alignment Alignment.Evil
          · simp [h1, h2, (pwa_union g' name).mp (Or.inr h2)]
          · have h3 : name ∉ g'.all_players := fun hm => by
              rcases (pwa_union g' name).mpr hm with h | h
              · exact h1 h
              · exact h2 h
            simp [h1, h2, h3]
      rw [hd]
      cases decide (name ∈ g'.players_with_alignment Alignment.Good) <;>
        cases decide (name ∈ g'.players_with_alignment Alignment.Evil) <;>
        cases decide (name ∈ g'.winners) <;> rfl
    · rintro ⟨hq1, hq2⟩
      simp only [Bool.and_eq_true, decide_eq_true_eq] at hq1 hq2
      exact pwa_disjoint g' name (hnd g' hg') ⟨hq1.1, hq2.1⟩

/-- C10: per game, the Good and Evil buckets partition the player set; over a
game sequence, the wins and losses in the overall standings are the sums of
the corresponding entries of the two alignment buckets (a missing bucket
entry counting as zero). -/
theorem pwa_partition_and_alignment_sum (g : GameInfo) (games : List GameInfo)
    (name : String) (hg : g.all_players.Nodup)
    (hnd : ∀ g' ∈ games, g'.all_players.Nodup) :
    ((name ∈ g.players_with_alignment Alignment.Good ∨
      name ∈ g.players_with_alignment Alignment.Evil) ↔ name ∈ g.all_players) ∧
    ¬(name ∈ g.players_with_alignment Alignment.Good ∧
      name ∈ g.players_with_alignment Alignment.Evil) ∧
    optWins (lookupRec (standings games) name) =
      optWins (lookupRec (standingsByAlignment games).good name) +
      optWins (lookupRec (standingsByAlignment games).evil name) ∧
    optLosses (lookupRec (standings games) name) =
      optLosses (lookupRec (standingsByAlignment games).good name) +
      optLosses (lookupRec (standingsByAlignment games).evil name) := by
  have h0 : standings games = foldGames GameInfo.all_players games [] := rfl
  have hga := optWins_foldGames GameInfo.all_players games name hnd
  have hgg := optWins_foldGames (fun g' => g'.players_with_alignment Alignment.Good)
    games name (fun g' h => pwa_nodup g' _ (hnd g' h))
  have hge := optWins_foldGames (fun g' => g'.players_with_alignment Alignment.Evil)
    games name (fun g' h => pwa_nodup g' _ (hnd g' h))
  have hsplit := counts_split_by_alignment games name hnd
  refine ⟨pwa_union g name, pwa_disjoint g name hg, ?_, ?_⟩
  · rw [h0, standingsByAlignment_good, standingsByAlignment_evil,
      hga.1, hgg.1, hge.1]
    exact hsplit.1
  · rw [h0, standingsByAlignment_good, standingsByAlignment_evil,
      hga.2, hgg.2, hge.2]
    exact hsplit.2

/-- Witness for C10 at a concrete game and one-game list. -/
theorem pwa_partition_and_alignment_sum_witness :
    (({ players := [("a", Role.Merlin), ("b", Role.Assassin)]
        quests := []
        result := { winner := Alignment.Good,
                    victory_type := VictoryType.Quest } } : GameInfo)).all_players.Nodup ∧
    optWins (lookupRec (standings
      [({ players := [("a", Role.Merlin), ("b", Role.Assassin)]
          quests := []
          result := { winner := Alignment.Good,
                      victory_type := VictoryType.Quest } } : GameInfo)]) "a") =
      optWins (lookupRec (standingsByAlignment
        [({ players := [("a", Role.Merlin), ("b", Role.Assassin)]
            quests := []
            result := { winner := Alignment.Good,
                        victory_type := VictoryType.Quest } } : GameInfo)]).good "a") +
      optWins (lookupRec (standingsByAlignment
        [({ players := [("a", Role.Merlin), ("b", Role.Assassin)]
            quests := []
            result := { winner := Alignment.Good,
                        victory_type := VictoryType.Quest } } : GameInfo)]).evil "a") :=
  ⟨by decide,
   (pwa_partition_and_alignment_sum
     ({ players := [("a", Role.Merlin), ("b", Role.Assassin)]
        quests := []
        result := { winner := Alignment.Good,
                    victory_type := VictoryType.Quest } } : GameInfo)
     [({ players := [("a", Role.Merlin), ("b", Role.Assassin)]
         quests := []
         result := { winner := Alignment.Good,
                     victory_type := VictoryType.Quest } } : GameInfo)] "a"
     (by decide) (by decide)).2.2.1⟩

end Avalon
